import Mathlib

/-!
Verification of the statistics helpers of the `ace-metrics` repository.

The Python sources are shallowly embedded as executable Lean functions:

* `src/metrics/helpers.py` — `get_month_keys_between_two_dates`,
  `sanitize_table_name`, `dataframes_to_xlsx_bytes` (name pipeline);
* `src/ace_metrics/alerts/alert_types.py` —
  `alert_type_quantities_by_category_by_month` (grouping + table build);
* `src/metrics/alerts/users.py` — `alert_quantities_by_user_by_month`;
* `src/ace_metrics/plotly_dash/helpers.py` — `fetch_data`.

Python `while` loops that may not terminate are modelled with an explicit
fuel parameter: a run that returns `none` for every fuel diverges.
Database cursors are modelled as oracle functions passed in as arguments.
-/

/-- A Python `datetime`, at day granularity.  The hour/minute/second parts
of the source's datetimes are never observed by the functions modelled
here (only `.year`, `.month`, day ordering and `'%Y%m'` formatting are),
so they are omitted. -/
structure PyDate where
  year : Nat
  month : Nat
  day : Nat
deriving DecidableEq, Repr

/-- A date is valid when its month is in `1..12` (the only constraint the
embedded code observes; days are never compared against month lengths). -/
def PyDate.IsValid (d : PyDate) : Prop := 1 ≤ d.month ∧ d.month ≤ 12

instance (d : PyDate) : Decidable d.IsValid := by
  unfold PyDate.IsValid; infer_instance

/-- Lexicographic order on (year, month, day): Python `datetime` order at
day granularity. -/
def PyDate.le (a b : PyDate) : Prop :=
  a.year < b.year ∨ (a.year = b.year ∧
    (a.month < b.month ∨ (a.month = b.month ∧ a.day ≤ b.day)))

/-- Strict lexicographic order on (year, month, day). -/
def PyDate.lt (a b : PyDate) : Prop :=
  a.year < b.year ∨ (a.year = b.year ∧
    (a.month < b.month ∨ (a.month = b.month ∧ a.day < b.day)))

instance (a b : PyDate) : Decidable (PyDate.le a b) := by
  unfold PyDate.le; infer_instance

instance (a b : PyDate) : Decidable (PyDate.lt a b) := by
  unfold PyDate.lt; infer_instance

/-- Leap-year test, as in the Gregorian calendar used by `dateutil`. -/
def isLeapYear (y : Nat) : Bool :=
  (y % 4 == 0 && y % 100 != 0) || y % 400 == 0

/-- Number of days in a month (for `relativedelta`'s day clamping). -/
def daysInMonth (y m : Nat) : Nat :=
  if m = 2 then (if isLeapYear y then 29 else 28)
  else if m = 4 ∨ m = 6 ∨ m = 9 ∨ m = 11 then 30
  else 31

/-- `d + relativedelta(months=1)`: advance one calendar month, wrapping the
year after December and clamping the day to the target month's length. -/
def addOneMonth (d : PyDate) : PyDate :=
  if d.month = 12 then
    { year := d.year + 1, month := 1, day := min d.day (daysInMonth (d.year + 1) 1) }
  else
    { year := d.year, month := d.month + 1, day := min d.day (daysInMonth d.year (d.month + 1)) }

/-- Iterated `addOneMonth`. -/
def addMonths (d : PyDate) : Nat → PyDate
  | 0 => d
  | n + 1 => addMonths (addOneMonth d) n

/-- Linear month index `12*year + month`, used to reason about month
arithmetic. -/
def monthIdx (d : PyDate) : Nat := 12 * d.year + d.month

/-- Zero-pad the decimal representation of `n` to width `w`. -/
def padNat (w n : Nat) : String :=
  let s := Nat.toDigits 10 n
  String.mk (List.replicate (w - s.length) '0' ++ s)

/-- `datetime.strftime(d, '%Y%m')`: the `YYYYMM` month key. -/
def monthKey (d : PyDate) : String := padNat 4 d.year ++ padNat 2 d.month

/-- The loop of `get_month_keys_between_two_dates` (src/metrics/helpers.py
lines 276-283).  The Python body is

    while start_date.year <= end_date.year:
        while start_date.month <= end_date.month:
            months.append(datetime.strftime(start_date, '%Y%m'))
            start_date += relativedelta(months=1)
            break

The inner `while … break` executes its body at most once, so each outer
iteration either appends one key and advances one month, or changes
nothing at all (and then the outer loop spins forever).  `fuel` bounds
the number of outer iterations; `none` means the bound was exhausted. -/
def gmkLoop : Nat → PyDate → PyDate → List String → Option (List String)
  | 0, _, _, _ => none
  | fuel + 1, cur, ed, acc =>
    if cur.year ≤ ed.year then
      if cur.month ≤ ed.month then
        gmkLoop fuel (addOneMonth cur) ed (acc ++ [monthKey cur])
      else
        gmkLoop fuel cur ed acc
    else
      some acc

/-- `get_month_keys_between_two_dates(start_date, end_date)` with explicit
fuel.  `some l` means the Python function terminates with result `l` (for
every sufficiently large fuel); `none` for all fuels means it diverges. -/
def get_month_keys_between_two_dates (fuel : Nat) (s e : PyDate) : Option (List String) :=
  gmkLoop fuel s e []

/-- The month-key generator diverges on `(s, e)`: no amount of fuel makes
the loop finish. -/
def gmkDiverges (s e : PyDate) : Prop :=
  ∀ fuel, get_month_keys_between_two_dates fuel s e = none

/-- Month span between two dates (`0` when `e` is before `s` month-wise). -/
def monthSpan (s e : PyDate) : Nat := monthIdx e - monthIdx s

/-- The sequence of `YYYYMM` keys from `s`'s month through `e`'s month
inclusive, in chronological order — what the spec's `months_between`
contract promises. -/
def expectedKeys (s e : PyDate) : List String :=
  (List.range (monthSpan s e + 1)).map (fun i => monthKey (addMonths s i))

example : get_month_keys_between_two_dates 5 ⟨2023, 11, 1⟩ ⟨2023, 12, 31⟩ =
    some ["202311", "202312"] := by decide

example : expectedKeys ⟨2024, 1, 15⟩ ⟨2024, 3, 10⟩ = ["202401", "202402", "202403"] := by
  decide

theorem addOneMonth_isValid (d : PyDate) (hv : d.IsValid) : (addOneMonth d).IsValid := by
  obtain ⟨h1, h2⟩ := hv
  by_cases h : d.month = 12 <;>
    simp [addOneMonth, PyDate.IsValid, h] <;> omega

theorem monthIdx_addOneMonth (d : PyDate) (hv : d.IsValid) :
    monthIdx (addOneMonth d) = monthIdx d + 1 := by
  obtain ⟨h1, h2⟩ := hv
  by_cases h : d.month = 12 <;>
    simp [addOneMonth, monthIdx, h] <;> omega

/-- Once the loop reaches a state with `cur.year ≤ ed.year` but
`cur.month > ed.month`, neither branch of the outer iteration changes the
state, so the loop never finishes. -/
theorem gmkLoop_stuck (cur ed : PyDate) (hy : cur.year ≤ ed.year) (hm : ed.month < cur.month) :
    ∀ fuel acc, gmkLoop fuel cur ed acc = none := by
  intro fuel
  induction fuel with
  | zero => intro acc; rfl
  | succ n ih =>
    intro acc
    unfold gmkLoop
    rw [if_pos hy, if_neg (by omega)]
    exact ih acc

theorem expectedKeys_cons (cur ed : PyDate) (h : monthIdx cur < monthIdx ed)
    (hv : cur.IsValid) :
    expectedKeys cur ed = monthKey cur :: expectedKeys (addOneMonth cur) ed := by
  unfold expectedKeys
  have h1 : monthSpan cur ed = monthSpan (addOneMonth cur) ed + 1 := by
    unfold monthSpan
    rw [monthIdx_addOneMonth cur hv]
    omega
  rw [h1, List.range_succ_eq_map, List.map_cons, List.map_map]
  rfl

/-- Full characterization of terminating runs of the loop: whenever it
returns a value, the value is the accumulator followed by the keys of the
months from `cur` through `ed` (and the month condition held at entry);
from an already-exhausted year range it returns the accumulator as is. -/
theorem gmkLoop_some :
    ∀ (fuel : Nat) (cur ed : PyDate) (acc l : List String),
      cur.IsValid → ed.IsValid →
      gmkLoop fuel cur ed acc = some l →
      (cur.year ≤ ed.year → cur.month ≤ ed.month ∧ l = acc ++ expectedKeys cur ed) ∧
      (ed.year < cur.year → l = acc) := by
  intro fuel
  induction fuel with
  | zero =>
    intro cur ed acc l _ _ h
    exact absurd h (by simp [gmkLoop])
  | succ n ih =>
    intro cur ed acc l hcur hed h
    unfold gmkLoop at h
    by_cases hy : cur.year ≤ ed.year
    · rw [if_pos hy] at h
      by_cases hm : cur.month ≤ ed.month
      · rw [if_pos hm] at h
        have hidx : monthIdx cur ≤ monthIdx ed := by
          unfold monthIdx; omega
        rcases Nat.lt_or_ge (monthIdx cur) (monthIdx ed) with hlt | hge
        · -- strictly before the final month: one more key, then recurse
          have hy' : (addOneMonth cur).year ≤ ed.year := by
            have hidx' := monthIdx_addOneMonth cur hcur
            have hv' := addOneMonth_isValid cur hcur
            obtain ⟨hv1, hv2⟩ := hv'
            obtain ⟨he1, he2⟩ := hed
            unfold monthIdx at hidx' hlt
            omega
          have := (ih (addOneMonth cur) ed (acc ++ [monthKey cur]) l
            (addOneMonth_isValid cur hcur) hed h).1 hy'
          refine ⟨fun _ => ⟨hm, ?_⟩, fun hcon => absurd hy (by omega)⟩
          rw [this.2, expectedKeys_cons cur ed hlt hcur]
          simp
        · -- `cur` is already the final month
          have heq : monthIdx cur = monthIdx ed := by omega
          have hym : cur.year = ed.year ∧ cur.month = ed.month := by
            obtain ⟨hc1, hc2⟩ := hcur
            obtain ⟨he1, he2⟩ := hed
            unfold monthIdx at heq
            omega
          have hspan : monthSpan cur ed = 0 := by unfold monthSpan; omega
          by_cases h12 : cur.month = 12
          · -- December: the next state leaves the year range, loop exits
            have hency : ed.year < (addOneMonth cur).year := by
              unfold addOneMonth
              rw [if_pos h12]
              simp
              omega
            have := (ih (addOneMonth cur) ed (acc ++ [monthKey cur]) l
              (addOneMonth_isValid cur hcur) hed h).2 hency
            refine ⟨fun _ => ⟨hm, ?_⟩, fun hcon => absurd hy (by omega)⟩
            rw [this]
            unfold expectedKeys
            rw [hspan]
            rfl
          · -- non-December final month: the next state is stuck, no value
            have hstuck : (addOneMonth cur).year ≤ ed.year ∧
                ed.month < (addOneMonth cur).month := by
              unfold addOneMonth
              rw [if_neg h12]
              simp
              omega
            rw [gmkLoop_stuck (addOneMonth cur) ed hstuck.1 hstuck.2 n
              (acc ++ [monthKey cur])] at h
            exact absurd h (by simp)
      · -- month condition false while year condition true: stuck state
        rw [if_neg hm] at h
        rw [gmkLoop_stuck cur ed hy (by omega) n acc] at h
        exact absurd h (by simp)
    · rw [if_neg hy] at h
      refine ⟨fun hcon => absurd hcon hy, fun _ => ?_⟩
      exact (Option.some_inj.mp h).symm

/-- C1: the claim says `get_month_keys_between_two_dates` terminates for
every `start_date ≤ end_date`, in particular across a calendar-year
boundary such as November 2023 through February 2024.  The code diverges
there: from the initial state the year condition holds but the month
condition `11 ≤ 2` fails, so the outer `while` loop never changes its
state and never exits.  This theorem evaluates the code at that failing
input: no fuel bound suffices. -/
theorem C1_month_generator_diverges_nov2023_feb2024 :
    gmkDiverges ⟨2023, 11, 1⟩ ⟨2024, 2, 1⟩ :=
  fun fuel => gmkLoop_stuck ⟨2023, 11, 1⟩ ⟨2024, 2, 1⟩ (by decide) (by decide) fuel []

/-- C2 counterexample: the claim's example "any dates in January 2024 and
March 2024 yield [202401, 202402, 202403]" is false — the generator
appends those three keys and then spins forever in April (month `4 ≤ 3`
fails while the year condition still holds), returning nothing. -/
theorem C2_counterexample_jan_to_march_2024_diverges :
    gmkDiverges ⟨2024, 1, 15⟩ ⟨2024, 3, 10⟩ := by
  intro fuel
  match fuel with
  | 0 => rfl
  | 1 => rfl
  | 2 => rfl
  | (n + 3) =>
    have h : get_month_keys_between_two_dates (n + 3) ⟨2024, 1, 15⟩ ⟨2024, 3, 10⟩ =
        gmkLoop n ⟨2024, 4, 15⟩ ⟨2024, 3, 10⟩ ["202401", "202402", "202403"] := rfl
    rw [h]
    exact gmkLoop_stuck ⟨2024, 4, 15⟩ ⟨2024, 3, 10⟩ (by decide) (by decide) n _

/-- C2 (amended): for `start_date ≤ end_date`, whenever
`get_month_keys_between_two_dates` terminates it returns exactly one
`YYYYMM` key per calendar month from the start month through the end
month inclusive, in chronological order and independent of the
day-of-month, with length = month span + 1; however it terminates only
when the end month is December, so the claim's Jan–Mar example diverges
instead of producing its three keys. -/
theorem C2_amended_terminating_runs_return_expected_keys
    (s e : PyDate) (fuel : Nat) (l : List String)
    (hs : s.IsValid) (he : e.IsValid) (hle : PyDate.le s e)
    (h : get_month_keys_between_two_dates fuel s e = some l) :
    l = expectedKeys s e ∧ l.length = monthSpan s e + 1 := by
  have hy : s.year ≤ e.year := by
    rcases hle with h1 | ⟨h1, _⟩ <;> omega
  have hc := (gmkLoop_some fuel s e [] l hs he h).1 hy
  have hl : l = expectedKeys s e := by
    rw [hc.2]; simp
  refine ⟨hl, ?_⟩
  rw [hl]
  simp [expectedKeys]

/-- Witness for C2 (amended): a concrete terminating run, January through
December 2024, yields the twelve expected keys. -/
theorem C2_amended_terminating_runs_return_expected_keys_witness :
    get_month_keys_between_two_dates 15 ⟨2024, 1, 15⟩ ⟨2024, 12, 3⟩ =
      some ["202401", "202402", "202403", "202404", "202405", "202406",
            "202407", "202408", "202409", "202410", "202411", "202412"] ∧
    ["202401", "202402", "202403", "202404", "202405", "202406",
     "202407", "202408", "202409", "202410", "202411", "202412"] =
      expectedKeys ⟨2024, 1, 15⟩ ⟨2024, 12, 3⟩ :=
  ⟨by decide,
   (C2_amended_terminating_runs_return_expected_keys ⟨2024, 1, 15⟩ ⟨2024, 12, 3⟩ 15 _
     (by decide) (by decide) (by decide) (by decide)).1⟩

/-- C3 counterexample: the claim says every inverted range
(`end_date < start_date`) raises `InvalidRangeError`; but on
(start = 2024-06-01, end = 2023-06-01) the generator terminates normally
and returns `[]` — the repository defines no `InvalidRangeError` at all. -/
theorem C3_counterexample_inverted_range_returns_value :
    PyDate.lt ⟨2023, 6, 1⟩ ⟨2024, 6, 1⟩ ∧
    get_month_keys_between_two_dates 1 ⟨2024, 6, 1⟩ ⟨2023, 6, 1⟩ = some [] :=
  ⟨by decide, rfl⟩

/-- C3 (amended): on an inverted range (`end_date < start_date`) the
generator never raises anything: whenever it terminates, it returns a
normal value, namely `[]` (end year before start year) or the single
start-month key (both dates in the same month of the same year); on the
remaining inverted ranges it diverges rather than failing. -/
theorem C3_amended_inverted_range_never_raises
    (s e : PyDate) (fuel : Nat) (l : List String)
    (hs : s.IsValid) (he : e.IsValid) (hlt : PyDate.lt e s)
    (h : get_month_keys_between_two_dates fuel s e = some l) :
    l = [] ∨ l = [monthKey s] := by
  have hc := gmkLoop_some fuel s e [] l hs he h
  by_cases hy : s.year ≤ e.year
  · obtain ⟨hm, hl⟩ := hc.1 hy
    have hye : s.year = e.year ∧ s.month = e.month := by
      rcases hlt with h1 | ⟨h1, h2 | ⟨h2, h3⟩⟩ <;> omega
    obtain ⟨hy1, hy2⟩ := hye
    have hspan : monthSpan s e = 0 := by
      unfold monthSpan monthIdx; omega
    right
    rw [hl]
    simp only [List.nil_append, expectedKeys]
    rw [hspan]
    rfl
  · left
    exact hc.2 (by omega)

/-- Witness for C3 (amended): start 2024-12-25, end 2024-12-01 is an
inverted range on which the generator terminates, returning the single
December key rather than raising. -/
theorem C3_amended_inverted_range_never_raises_witness :
    PyDate.lt ⟨2024, 12, 1⟩ ⟨2024, 12, 25⟩ ∧
    get_month_keys_between_two_dates 2 ⟨2024, 12, 25⟩ ⟨2024, 12, 1⟩ = some ["202412"] ∧
    (["202412"] = ([] : List String) ∨ ["202412"] = [monthKey ⟨2024, 12, 25⟩]) :=
  ⟨by decide, by decide,
   C3_amended_inverted_range_never_raises ⟨2024, 12, 25⟩ ⟨2024, 12, 1⟩ 2 ["202412"]
     (by decide) (by decide) (by decide) (by decide)⟩

/-- Python `s.startswith(pre)`: the characters of `pre` are an initial
segment of the characters of `s`. -/
def pyStartswith (s pre : String) : Bool :=
  List.take pre.data.length s.data == pre.data

/-- How many identifiers of `ids` the alert-type string `a` starts with
(the inner `for _id in at_identifers` loop has no `break`, so every
matching identifier fires once). -/
def matchCount (ids : List String) (a : String) : Nat :=
  List.countP (fun i => pyStartswith a i) ids

/-- Whether `a` starts with at least one identifier of `ids`. -/
def matchesAny (ids : List String) (a : String) : Bool :=
  List.any ids (fun i => pyStartswith a i)

theorem matchesAny_iff_matchCount_pos (ids : List String) (a : String) :
    matchesAny ids a = true ↔ 0 < matchCount ids a := by
  rw [matchesAny, matchCount, List.any_eq_true, List.countP_pos]

/-- One iteration of the outer category loop of
`alert_type_quantities_by_category_by_month`
(src/ace_metrics/alerts/alert_types.py lines 217-224), for a single
category with identifier list `ids`: walk the observed alert types,
skip any already accounted for, and append each remaining type once per
matching identifier both to the category's list (first component) and to
`raw_at_accounted_for` (second component). -/
def assignCategory (ids : List String) : List String → List String → List String × List String
  | [], raw => ([], raw)
  | a :: rest, raw =>
    if a ∈ raw then assignCategory ids rest raw
    else
      (List.replicate (matchCount ids a) a ++
         (assignCategory ids rest (raw ++ List.replicate (matchCount ids a) a)).1,
       (assignCategory ids rest (raw ++ List.replicate (matchCount ids a) a)).2)

/-- The full category-map construction loop (lines 215-224): process the
categories of `alert_type_categories_key` in dict iteration order,
threading `raw_at_accounted_for` through.  Python dict keys are unique,
so `alert_type_categories_map[category]` is modelled positionally. -/
def buildGrouping : List (String × List String) → List String → List String →
    List (String × List String) × List String
  | [], _, raw => ([], raw)
  | (c, ids) :: cats, types, raw =>
    ((c, (assignCategory ids types raw).1) ::
       (buildGrouping cats types (assignCategory ids types raw).2).1,
     (buildGrouping cats types (assignCategory ids types raw).2).2)

theorem assignCategory_snd_mem (ids : List String) (b : String) :
    ∀ (types raw : List String),
      b ∈ (assignCategory ids types raw).2 ↔
        b ∈ raw ∨ (b ∈ types ∧ matchesAny ids b = true) := by
  intro types
  induction types with
  | nil => intro raw; simp [assignCategory]
  | cons a rest ih =>
    intro raw
    by_cases hmem : a ∈ raw
    · rw [assignCategory, if_pos hmem, ih raw]
      constructor
      · rintro (h | ⟨h1, h2⟩)
        · exact Or.inl h
        · exact Or.inr ⟨List.mem_cons_of_mem _ h1, h2⟩
      · rintro (h | ⟨h1, h2⟩)
        · exact Or.inl h
        · rcases List.mem_cons.mp h1 with rfl | h1
          · exact Or.inl hmem
          · exact Or.inr ⟨h1, h2⟩
    · rw [assignCategory, if_neg hmem]
      simp only [ih, List.mem_append, List.mem_replicate]
      by_cases hba : b = a
      · subst hba
        by_cases hm : matchesAny ids b = true
        · have hk : matchCount ids b ≠ 0 := by
            have := (matchesAny_iff_matchCount_pos ids b).mp hm
            omega
          simp [hm, hk]
        · have hk : matchCount ids b = 0 := by
            rcases Nat.eq_zero_or_pos (matchCount ids b) with h0 | h0
            · exact h0
            · exact absurd ((matchesAny_iff_matchCount_pos ids b).mpr h0) hm
          simp [hk, hmem, hm]
      · constructor
        · rintro ((h | ⟨hk, hba'⟩) | h)
          · exact Or.inl h
          · exact absurd hba' hba
          · exact Or.inr ⟨List.mem_cons_of_mem _ h.1, h.2⟩
        · rintro (h | ⟨h1, h2⟩)
          · exact Or.inl (Or.inl h)
          · rcases List.mem_cons.mp h1 with rfl | h1
            · exact absurd rfl hba
            · exact Or.inr ⟨h1, h2⟩

theorem assignCategory_fst_mem (ids : List String) (b : String) :
    ∀ (types raw : List String),
      b ∈ (assignCategory ids types raw).1 ↔
        b ∈ types ∧ b ∉ raw ∧ matchesAny ids b = true := by
  intro types
  induction types with
  | nil => intro raw; simp [assignCategory]
  | cons a rest ih =>
    intro raw
    by_cases hmem : a ∈ raw
    · rw [assignCategory, if_pos hmem, ih raw]
      constructor
      · rintro ⟨h1, h2, h3⟩
        exact ⟨List.mem_cons_of_mem _ h1, h2, h3⟩
      · rintro ⟨h1, h2, h3⟩
        rcases List.mem_cons.mp h1 with rfl | h1
        · exact absurd hmem h2
        · exact ⟨h1, h2, h3⟩
    · rw [assignCategory, if_neg hmem]
      simp only [List.mem_append, List.mem_replicate, ih, List.mem_cons]
      by_cases hba : b = a
      · subst hba
        by_cases hm : matchesAny ids b = true
        · have hk : matchCount ids b ≠ 0 := by
            have := (matchesAny_iff_matchCount_pos ids b).mp hm
            omega
          simp [hm, hk, hmem]
        · have hk : matchCount ids b = 0 := by
            rcases Nat.eq_zero_or_pos (matchCount ids b) with h0 | h0
            · exact h0
            · exact absurd ((matchesAny_iff_matchCount_pos ids b).mpr h0) hm
          simp [hk, hmem, hm]
      · constructor
        · rintro (⟨hk, hba'⟩ | ⟨h1, h2, h3⟩)
          · exact absurd hba' hba
          · exact ⟨Or.inr h1, fun hr => h2 (Or.inl hr), h3⟩
        · rintro ⟨h1 | h1, h2, h3⟩
          · exact absurd h1 hba
          · refine Or.inr ⟨h1, fun hr => ?_, h3⟩
            rcases hr with hr | ⟨hk, hba'⟩
            · exact h2 hr
            · exact hba hba'

theorem assignCategory_fst_count (ids : List String) (b : String) :
    ∀ (types raw : List String),
      List.count b (assignCategory ids types raw).1 =
        if b ∈ types ∧ b ∉ raw then matchCount ids b else 0 := by
  intro types
  induction types with
  | nil => intro raw; simp [assignCategory]
  | cons a rest ih =>
    intro raw
    by_cases hmem : a ∈ raw
    · rw [assignCategory, if_pos hmem, ih raw]
      by_cases hba : b = a
      · subst hba; simp [hmem]
      · simp [List.mem_cons, hba]
    · rw [assignCategory, if_neg hmem]
      rw [List.count_append, ih (raw ++ List.replicate (matchCount ids a) a)]
      by_cases hba : b = a
      · subst hba
        rcases Nat.eq_zero_or_pos (matchCount ids b) with hk | hk
        · simp [hk, hmem, List.count_replicate]
        · have hbr : b ∈ raw ++ List.replicate (matchCount ids b) b := by
            simp [List.mem_replicate]
            omega
          simp [List.count_replicate, hbr, hmem]
      · have hbr : (b ∈ raw ++ List.replicate (matchCount ids a) a) ↔ b ∈ raw := by
          simp [List.mem_replicate, hba]
        simp [List.count_replicate, hba, hbr, List.mem_cons, Ne.symm hba]

/-- The `raw_at_accounted_for` list as it stands when the `i`-th category
of the key starts being processed. -/
def rawBefore (types : List String) : List (String × List String) → List String → Nat → List String
  | _, raw, 0 => raw
  | [], raw, _ + 1 => raw
  | (_, ids) :: cats, raw, n + 1 => rawBefore types cats (assignCategory ids types raw).2 n

theorem rawBefore_mem (types : List String) (b : String) :
    ∀ (cats : List (String × List String)) (raw : List String) (i : Nat)
      (hi : i ≤ cats.length),
      (b ∈ rawBefore types cats raw i ↔
        b ∈ raw ∨ (b ∈ types ∧ ∃ j, ∃ (hj : j < i),
          matchesAny (cats.get ⟨j, by omega⟩).2 b = true)) := by
  intro cats
  induction cats with
  | nil =>
    intro raw i hi
    have hz : i = 0 := by simpa using hi
    subst hz
    simp [rawBefore]
  | cons c cats ih =>
    intro raw i hi
    obtain ⟨cname, ids⟩ := c
    match i with
    | 0 => simp [rawBefore]
    | n + 1 =>
      rw [rawBefore]
      rw [ih ((assignCategory ids types raw).2) n (by simpa using hi)]
      rw [assignCategory_snd_mem]
      constructor
      · rintro ((h | ⟨h1, h2⟩) | ⟨h1, j, hj, h2⟩)
        · exact Or.inl h
        · exact Or.inr ⟨h1, 0, by omega, by simpa using h2⟩
        · refine Or.inr ⟨h1, j + 1, by omega, ?_⟩
          simpa using h2
      · rintro (h | ⟨h1, j, hj, h2⟩)
        · exact Or.inl (Or.inl h)
        · match j with
          | 0 => exact Or.inl (Or.inr ⟨h1, by simpa using h2⟩)
          | m + 1 =>
            refine Or.inr ⟨h1, m, by omega, ?_⟩
            simpa using h2

theorem buildGrouping_fst_length :
    ∀ (cats : List (String × List String)) (types raw : List String),
      ((buildGrouping cats types raw).1).length = cats.length := by
  intro cats
  induction cats with
  | nil => intro types raw; rfl
  | cons c cats ih =>
    intro types raw
    obtain ⟨cname, ids⟩ := c
    simp [buildGrouping, ih]

/-- The `i`-th entry of the constructed grouping map is the `i`-th
category name paired with the alert types that `assignCategory` gives it
against the `raw_at_accounted_for` state reached at that point. -/
theorem buildGrouping_get_eq :
    ∀ (cats : List (String × List String)) (types raw : List String) (i : Nat)
      (hi : i < cats.length) (hi2 : i < ((buildGrouping cats types raw).1).length),
      (buildGrouping cats types raw).1.get ⟨i, hi2⟩ =
        ((cats.get ⟨i, hi⟩).1,
         (assignCategory (cats.get ⟨i, hi⟩).2 types (rawBefore types cats raw i)).1) := by
  intro cats
  induction cats with
  | nil => intro types raw i hi _; exact absurd hi (by simp)
  | cons c cats ih =>
    intro types raw i hi hi2
    obtain ⟨cname, ids⟩ := c
    match i with
    | 0 => simp [buildGrouping, rawBefore]
    | n + 1 =>
      have hn : n < cats.length := by simpa using hi
      have hn2 : n < ((buildGrouping cats types (assignCategory ids types raw).2).1).length := by
        rw [buildGrouping_fst_length]; exact hn
      have := ih types ((assignCategory ids types raw).2) n hn hn2
      simpa [buildGrouping, rawBefore] using this

/-- Which alert types end up under the `i`-th category: exactly the
observed types not accounted for at the start (`raw`) that match the
`i`-th identifier list and match no earlier category's identifiers. -/
theorem buildGrouping_get_mem
    (cats : List (String × List String)) (types : List String) (b : String) (i : Nat)
    (hi : i < cats.length) (hi2 : i < ((buildGrouping cats types []).1).length) :
    b ∈ ((buildGrouping cats types []).1.get ⟨i, hi2⟩).2 ↔
      b ∈ types ∧ matchesAny (cats.get ⟨i, hi⟩).2 b = true ∧
      ∀ j, ∀ (hj : j < i), matchesAny (cats.get ⟨j, by omega⟩).2 b = false := by
  rw [buildGrouping_get_eq cats types [] i hi hi2]
  rw [assignCategory_fst_mem]
  rw [rawBefore_mem types b cats [] i (by omega)]
  simp only [List.mem_nil_iff, false_or]
  constructor
  · rintro ⟨h1, h2, h3⟩
    refine ⟨h1, h3, fun j hj => ?_⟩
    rcases Bool.eq_false_or_eq_true (matchesAny (cats.get ⟨j, by omega⟩).2 b) with ht | hf
    · exact absurd ⟨h1, j, hj, ht⟩ h2
    · exact hf
  · rintro ⟨h1, h2, h3⟩
    refine ⟨h1, ?_, h2⟩
    rintro ⟨_, j, hj, hmt⟩
    rw [h3 j hj] at hmt
    exact Bool.noConfusion hmt

/-- C5: grouping exclusivity (first-match-wins).  In the category map
built by `alert_type_quantities_by_category_by_month`, an alert type
found under the `i`-th category matches that category's identifiers,
matches no earlier category's identifiers, and appears under no other
category — in particular never under a later category, even when it also
starts with one of the later category's identifiers. -/
theorem C5_grouping_first_match_wins
    (catkey : List (String × List String)) (types : List String) (b : String)
    (i j : Nat) (hi : i < catkey.length) (hj : j < catkey.length)
    (hi2 : i < ((buildGrouping catkey types []).1).length)
    (hj2 : j < ((buildGrouping catkey types []).1).length)
    (hij : i ≠ j)
    (hb : b ∈ ((buildGrouping catkey types []).1.get ⟨i, hi2⟩).2) :
    b ∉ ((buildGrouping catkey types []).1.get ⟨j, hj2⟩).2 ∧
    matchesAny (catkey.get ⟨i, hi⟩).2 b = true ∧
    ∀ k, ∀ (hk : k < i), matchesAny (catkey.get ⟨k, by omega⟩).2 b = false := by
  have h1 := (buildGrouping_get_mem catkey types b i hi hi2).mp hb
  refine ⟨?_, h1.2.1, h1.2.2⟩
  intro hb2
  have h2 := (buildGrouping_get_mem catkey types b j hj hj2).mp hb2
  rcases Nat.lt_or_ge i j with hlt | hge
  · have hf : matchesAny (catkey.get ⟨i, hi⟩).2 b = false := h2.2.2 i hlt
    rw [h1.2.1] at hf
    exact Bool.noConfusion hf
  · have hlt : j < i := by omega
    have hf : matchesAny (catkey.get ⟨j, hj⟩).2 b = false := h1.2.2 j hlt
    rw [h2.2.1] at hf
    exact Bool.noConfusion hf

/-- Witness for C5: with categories `c1 -> ["a"]`, `c2 -> ["ab"]` and the
observed type `"abc"` matching both, the type lands under `c1` only. -/
theorem C5_grouping_first_match_wins_witness :
    "abc" ∈ ((buildGrouping [("c1", ["a"]), ("c2", ["ab"])] ["abc"] []).1.get
      ⟨0, by decide⟩).2 ∧
    "abc" ∉ ((buildGrouping [("c1", ["a"]), ("c2", ["ab"])] ["abc"] []).1.get
      ⟨1, by decide⟩).2 ∧
    matchesAny ([("c1", ["a"]), ("c2", ["ab"])].get ⟨0, by decide⟩).2 "abc" = true :=
  ⟨by decide,
   (C5_grouping_first_match_wins [("c1", ["a"]), ("c2", ["ab"])] ["abc"] "abc" 0 1
     (by decide) (by decide) (by decide) (by decide) (by decide) (by decide)).1,
   (C5_grouping_first_match_wins [("c1", ["a"]), ("c2", ["ab"])] ["abc"] "abc" 0 1
     (by decide) (by decide) (by decide) (by decide) (by decide) (by decide)).2.1⟩

/-- C10: within the first category whose identifier list matches an
observed alert type, the type is appended once per matching identifier —
`matchCount` many copies, so `k` matching identifiers yield `k` duplicate
entries — while no other category receives it at all. -/
theorem C10_duplicate_entries_per_matching_identifier
    (catkey : List (String × List String)) (types : List String) (b : String)
    (i : Nat) (hi : i < catkey.length)
    (hi2 : i < ((buildGrouping catkey types []).1).length)
    (hb : b ∈ types)
    (hmatch : matchesAny (catkey.get ⟨i, hi⟩).2 b = true)
    (hfirst : ∀ j, ∀ (hj : j < i), matchesAny (catkey.get ⟨j, by omega⟩).2 b = false) :
    List.count b ((buildGrouping catkey types []).1.get ⟨i, hi2⟩).2 =
      matchCount (catkey.get ⟨i, hi⟩).2 b ∧
    ∀ j, ∀ (hj : j < catkey.length)
      (hj2 : j < ((buildGrouping catkey types []).1).length),
      j ≠ i → b ∉ ((buildGrouping catkey types []).1.get ⟨j, hj2⟩).2 := by
  have hnr : b ∉ rawBefore types catkey [] i := by
    rw [rawBefore_mem types b catkey [] i (by omega)]
    rintro (h | ⟨h1, j, hj, h2⟩)
    · simp at h
    · have hf : matchesAny (catkey.get ⟨j, by omega⟩).2 b = false := hfirst j hj
      rw [hf] at h2
      exact Bool.noConfusion h2
  constructor
  · rw [buildGrouping_get_eq catkey types [] i hi hi2]
    show List.count b
      (assignCategory (catkey.get ⟨i, hi⟩).2 types (rawBefore types catkey [] i)).1 = _
    rw [assignCategory_fst_count, if_pos ⟨hb, hnr⟩]
  · intro j hj hj2 hne hmem
    rw [buildGrouping_get_mem catkey types b j hj hj2] at hmem
    rcases Nat.lt_or_ge j i with hlt | hge
    · have hf : matchesAny (catkey.get ⟨j, hj⟩).2 b = false := hfirst j hlt
      rw [hmem.2.1] at hf
      exact Bool.noConfusion hf
    · have hgt : i < j := by omega
      have hf : matchesAny (catkey.get ⟨i, hi⟩).2 b = false := hmem.2.2 i hgt
      rw [hmatch] at hf
      exact Bool.noConfusion hf

/-- Witness for C10: category `c` lists the two identifiers `"a"` and
`"ab"`; the type `"abc"` starts with both and is appended twice to `c`'s
list. -/
theorem C10_duplicate_entries_per_matching_identifier_witness :
    "abc" ∈ (["abc"] : List String) ∧
    matchesAny ([("c", ["a", "ab"])].get ⟨0, by decide⟩).2 "abc" = true ∧
    List.count "abc" ((buildGrouping [("c", ["a", "ab"])] ["abc"] []).1.get
      ⟨0, by decide⟩).2 = matchCount ([("c", ["a", "ab"])].get ⟨0, by decide⟩).2 "abc" ∧
    matchCount ([("c", ["a", "ab"])].get ⟨0, by decide⟩).2 "abc" = 2 :=
  ⟨by decide, by decide,
   (C10_duplicate_entries_per_matching_identifier [("c", ["a", "ab"])] ["abc"] "abc" 0
     (by decide) (by decide) (by decide) (by decide)
     (fun j hj => absurd hj (by omega))).1,
   by decide⟩

/-- First-occurrence deduplication, used to model iterating a Python
`set` built from a list.  CPython's set iteration order is unspecified;
the claims proved below are insensitive to the order, only membership
matters. -/
def dedupF (l : List String) : List String :=
  l.foldl (fun acc x => if x ∈ acc then acc else acc ++ [x]) []

theorem dedupFoldl_mem (b : String) :
    ∀ (l acc : List String),
      b ∈ l.foldl (fun acc x => if x ∈ acc then acc else acc ++ [x]) acc ↔
        b ∈ acc ∨ b ∈ l := by
  intro l
  induction l with
  | nil => intro acc; simp
  | cons a rest ih =>
    intro acc
    rw [List.foldl_cons, ih]
    by_cases h : a ∈ acc
    · rw [if_pos h]
      constructor
      · rintro (h1 | h1)
        · exact Or.inl h1
        · exact Or.inr (List.mem_cons_of_mem _ h1)
      · rintro (h1 | h1)
        · exact Or.inl h1
        · rcases List.mem_cons.mp h1 with rfl | h1
          · exact Or.inl h
          · exact Or.inr h1
    · rw [if_neg h]
      simp only [List.mem_append, List.mem_singleton, List.mem_cons]
      tauto

theorem dedupF_mem (b : String) (l : List String) : b ∈ dedupF l ↔ b ∈ l := by
  rw [dedupF, dedupFoldl_mem]
  simp

/-- The helper `_diff(li1, li2)` of
`alert_type_quantities_by_category_by_month` (lines 226-227):
`list(set(li1) - set(li2)) + list(set(li2) - set(li1))`, the symmetric
set difference as a list. -/
def pySetDiff (l1 l2 : List String) : List String :=
  dedupF (l1.filter (fun x => decide (x ∉ l2))) ++
    dedupF (l2.filter (fun x => decide (x ∉ l1)))

theorem pySetDiff_mem (b : String) (l1 l2 : List String) :
    b ∈ pySetDiff l1 l2 ↔ (b ∈ l1 ∧ b ∉ l2) ∨ (b ∈ l2 ∧ b ∉ l1) := by
  rw [pySetDiff, List.mem_append, dedupF_mem, dedupF_mem]
  simp [List.mem_filter]

/-- Python dict assignment `m[k] = v` on an association list: overwrite
in place when the key exists, append otherwise. -/
def pyDictSet (m : List (String × List String)) (k : String) (v : List String) :
    List (String × List String) :=
  if m.any (fun p => p.1 == k) then
    m.map (fun p => if p.1 == k then (p.1, v) else p)
  else
    m ++ [(k, v)]

/-- The complete `alert_type_categories_map` construction of
`alert_type_quantities_by_category_by_month` (lines 215-231): the
first-match grouping followed by the `other` bucket for the symmetric
difference of `raw_at_accounted_for` and the observed alert types,
added only when non-empty. -/
def alertTypeCategoriesMap (catkey : List (String × List String)) (types : List String) :
    List (String × List String) :=
  if (pySetDiff (buildGrouping catkey types []).2 types).isEmpty then
    (buildGrouping catkey types []).1
  else
    pyDictSet (buildGrouping catkey types []).1 "other"
      (pySetDiff (buildGrouping catkey types []).2 types)

theorem buildGrouping_fst_names :
    ∀ (cats : List (String × List String)) (types raw : List String),
      ((buildGrouping cats types raw).1).map Prod.fst = cats.map Prod.fst := by
  intro cats
  induction cats with
  | nil => intro types raw; rfl
  | cons c cats ih =>
    intro types raw
    obtain ⟨cname, ids⟩ := c
    simp [buildGrouping, ih]

theorem buildGrouping_snd_mem (types : List String) (b : String) :
    ∀ (cats : List (String × List String)) (raw : List String),
      b ∈ (buildGrouping cats types raw).2 ↔
        b ∈ raw ∨ (b ∈ types ∧ cats.any (fun p => matchesAny p.2 b) = true) := by
  intro cats
  induction cats with
  | nil => intro raw; simp [buildGrouping]
  | cons c cats ih =>
    intro raw
    obtain ⟨cname, ids⟩ := c
    rw [buildGrouping]
    show b ∈ (buildGrouping cats types (assignCategory ids types raw).2).2 ↔ _
    rw [ih, assignCategory_snd_mem]
    simp only [List.any_cons, Bool.or_eq_true]
    tauto

/-- C6 counterexample: the claim says the `other` category appears in the
output exactly when some observed alert type matches no category.  With
a category map holding the single category named `other` whose
identifier `"x"` matches the only observed type `"x1"`, no unmatched
type exists, yet the
output still contains a category named `other` (the caller's own). -/
theorem C6_counterexample_other_key_without_unmatched :
    (alertTypeCategoriesMap [("other", ["x"])] ["x1"]).any
      (fun p => p.1 == "other") = true ∧
    (["x1"] : List String).all
      (fun b => [("other", ["x"])].any (fun p => matchesAny p.2 b)) = true :=
  ⟨by decide, by decide⟩

/-- C6 (amended): provided the caller's category map does not itself use
the reserved name `other`, every observed alert type matching no
category's identifiers is collected into the synthesized `other` bucket,
and a category named `other` appears in the output exactly when at least
one such unmatched type exists.  (If the caller's map does contain an
`other` key, that category appears in the output regardless, which is
the counterexample to the claim as stated.) -/
theorem C6_amended_other_bucket
    (catkey : List (String × List String)) (types : List String)
    (hother : "other" ∉ catkey.map Prod.fst) :
    ((∃ p ∈ alertTypeCategoriesMap catkey types, p.1 = "other") ↔
      ∃ b ∈ types, catkey.any (fun p => matchesAny p.2 b) = false) ∧
    (∀ b ∈ types, catkey.any (fun p => matchesAny p.2 b) = false →
      ∃ l, ("other", l) ∈ alertTypeCategoriesMap catkey types ∧ b ∈ l) := by
  have hraw : ∀ b, b ∈ (buildGrouping catkey types []).2 ↔
      b ∈ types ∧ catkey.any (fun p => matchesAny p.2 b) = true := by
    intro b
    rw [buildGrouping_snd_mem]
    simp
  have hunc : ∀ b, b ∈ pySetDiff (buildGrouping catkey types []).2 types ↔
      b ∈ types ∧ catkey.any (fun p => matchesAny p.2 b) = false := by
    intro b
    rw [pySetDiff_mem]
    constructor
    · rintro (⟨h1, h2⟩ | ⟨h1, h2⟩)
      · exact absurd ((hraw b).mp h1).1 h2
      · refine ⟨h1, ?_⟩
        rcases Bool.eq_false_or_eq_true (catkey.any (fun p => matchesAny p.2 b)) with ht | hf
        · exact absurd ((hraw b).mpr ⟨h1, ht⟩) h2
        · exact hf
    · rintro ⟨h1, h2⟩
      refine Or.inr ⟨h1, fun hr => ?_⟩
      have hx := ((hraw b).mp hr).2
      rw [h2] at hx
      exact Bool.noConfusion hx
  have hkeys : ∀ p ∈ (buildGrouping catkey types []).1, p.1 ≠ "other" := by
    intro p hp heq
    apply hother
    rw [← buildGrouping_fst_names catkey types []]
    exact heq ▸ List.mem_map_of_mem Prod.fst hp
  by_cases hempty : (pySetDiff (buildGrouping catkey types []).2 types).isEmpty = true
  · have hnil : pySetDiff (buildGrouping catkey types []).2 types = [] := by
      simpa using hempty
    unfold alertTypeCategoriesMap
    rw [if_pos hempty]
    constructor
    · constructor
      · rintro ⟨p, hp, hpeq⟩
        exact absurd hpeq (hkeys p hp)
      · rintro ⟨b, hb, hbf⟩
        have hm := (hunc b).mpr ⟨hb, hbf⟩
        rw [hnil] at hm
        exact absurd hm (List.not_mem_nil b)
    · intro b hb hbf
      have hm := (hunc b).mpr ⟨hb, hbf⟩
      rw [hnil] at hm
      exact absurd hm (List.not_mem_nil b)
  · have hne : ¬ ((buildGrouping catkey types []).1.any (fun p => p.1 == "other")) = true := by
      intro hany
      rcases List.any_eq_true.mp hany with ⟨p, hp, hpeq⟩
      exact hkeys p hp (by simpa using hpeq)
    unfold alertTypeCategoriesMap
    rw [if_neg hempty]
    unfold pyDictSet
    rw [if_neg hne]
    have hmem_other : ("other", pySetDiff (buildGrouping catkey types []).2 types) ∈
        (buildGrouping catkey types []).1 ++
          [("other", pySetDiff (buildGrouping catkey types []).2 types)] := by
      simp
    have hnenil : pySetDiff (buildGrouping catkey types []).2 types ≠ [] := by
      intro h
      rw [h] at hempty
      exact hempty rfl
    constructor
    · constructor
      · intro _
        obtain ⟨x, hx⟩ := List.exists_mem_of_ne_nil _ hnenil
        have hxx := (hunc x).mp hx
        exact ⟨x, hxx.1, hxx.2⟩
      · intro _
        exact ⟨("other", pySetDiff (buildGrouping catkey types []).2 types), hmem_other, rfl⟩
    · intro b hb hbf
      exact ⟨pySetDiff (buildGrouping catkey types []).2 types, hmem_other,
        (hunc b).mpr ⟨hb, hbf⟩⟩

/-- Witness for C6 (amended): the spec's own scenario — categories
`phish` and `network`, observed types `email_scanner_v1`, `ids_snort`
and `custom_tool_x` — satisfies the hypothesis and the conclusion. -/
theorem C6_amended_other_bucket_witness :
    "other" ∉ ([("phish", ["email_scanner_"]), ("network", ["ids_"])].map Prod.fst) ∧
    (((∃ p ∈ alertTypeCategoriesMap [("phish", ["email_scanner_"]), ("network", ["ids_"])]
        ["email_scanner_v1", "ids_snort", "custom_tool_x"], p.1 = "other") ↔
      ∃ b ∈ ["email_scanner_v1", "ids_snort", "custom_tool_x"],
        [("phish", ["email_scanner_"]), ("network", ["ids_"])].any
          (fun p => matchesAny p.2 b) = false) ∧
    (∀ b ∈ ["email_scanner_v1", "ids_snort", "custom_tool_x"],
      [("phish", ["email_scanner_"]), ("network", ["ids_"])].any
        (fun p => matchesAny p.2 b) = false →
      ∃ l, ("other", l) ∈ alertTypeCategoriesMap
        [("phish", ["email_scanner_"]), ("network", ["ids_"])]
        ["email_scanner_v1", "ids_snort", "custom_tool_x"] ∧ b ∈ l)) :=
  ⟨by decide,
   C6_amended_other_bucket [("phish", ["email_scanner_"]), ("network", ["ids_"])]
     ["email_scanner_v1", "ids_snort", "custom_tool_x"] (by decide)⟩

/-- The spec scenario in full: the grouping puts one alert type in each
of `phish`, `network` and the synthesized `other`. -/
example : alertTypeCategoriesMap [("phish", ["email_scanner_"]), ("network", ["ids_"])]
    ["email_scanner_v1", "ids_snort", "custom_tool_x"] =
    [("phish", ["email_scanner_v1"]), ("network", ["ids_snort"]),
     ("other", ["custom_tool_x"])] := by decide

/-- Python dict assignment `m[k] = v` on an association list with values
of any type (same semantics as `pyDictSet`): overwrite in place when the
key exists, append otherwise. -/
def pyDictAssign {α : Type} (m : List (String × α)) (k : String) (v : α) :
    List (String × α) :=
  if m.any (fun p => p.1 == k) then
    m.map (fun p => if p.1 == k then (p.1, v) else p)
  else
    m ++ [(k, v)]

theorem pyDictAssign_any_iff {α : Type} (m : List (String × α)) (k : String) :
    m.any (fun p => p.1 == k) = true ↔ k ∈ m.map Prod.fst := by
  rw [List.any_eq_true]
  simp only [beq_iff_eq, List.mem_map]

theorem pyDictAssign_keys_of_not_mem {α : Type} (m : List (String × α)) (k : String) (v : α)
    (h : k ∉ m.map Prod.fst) :
    (pyDictAssign m k v).map Prod.fst = m.map Prod.fst ++ [k] := by
  unfold pyDictAssign
  rw [if_neg (fun hc => h ((pyDictAssign_any_iff m k).mp hc))]
  simp

theorem pyDictAssign_keys_of_mem {α : Type} (m : List (String × α)) (k : String) (v : α)
    (h : k ∈ m.map Prod.fst) :
    (pyDictAssign m k v).map Prod.fst = m.map Prod.fst := by
  unfold pyDictAssign
  rw [if_pos ((pyDictAssign_any_iff m k).mpr h), List.map_map]
  apply List.map_congr_left
  intro p _
  by_cases hc : p.1 = k
  · simp [hc]
  · simp [hc]

/-- The inner month loop of `alert_type_quantities_by_category_by_month`
(lines 237-247) for one category: `month_data[month] = 0`, skip the
query when the category has no alert types, otherwise overwrite with the
fetched count when the cursor returns a row.  `q` models
`cursor.execute(...); cursor.fetchone()` for the month and the
category's alert-type parameters. -/
def buildCategoryMonthData (atypes : List String) (q : String → List String → Option Nat) :
    List String → List (String × Nat) → List (String × Nat)
  | [], md => md
  | m :: months, md =>
    buildCategoryMonthData atypes q months
      (if atypes.isEmpty then pyDictAssign md m 0
       else
         match q m atypes with
         | some n => pyDictAssign (pyDictAssign md m 0) m n
         | none => pyDictAssign md m 0)

/-- The `data` dict of `alert_type_quantities_by_category_by_month`
(lines 235-248): one column per category of the constructed categories
map, keyed by the unique category names in iteration order. -/
def alertTypeQuantitiesData (months : List String) (catkey : List (String × List String))
    (types : List String) (q : String → List String → Option Nat) :
    List (String × List (String × Nat)) :=
  (alertTypeCategoriesMap catkey types).map
    (fun p => (p.1, buildCategoryMonthData p.2 q months []))

/-- The row index of `pd.DataFrame(data=data)` over a dict of dicts: the
union of the inner dicts' keys (pandas unions them in order of first
appearance; the claims below depend only on the row set and count). -/
def tableIndex (data : List (String × List (String × Nat))) : List String :=
  dedupF ((data.map (fun c => c.2.map Prod.fst)).join)

/-- The per-user month dict of `alert_quantities_by_user_by_month`
(src/metrics/alerts/users.py lines 90-95): a month key is inserted only
when the cursor returns a row — months without data are skipped, not
zero-filled. -/
def userMonthData (q : String → String → Option Nat) (uname : String) :
    List String → List (String × Nat) → List (String × Nat)
  | [], md => md
  | m :: months, md =>
    userMonthData q uname months
      (match q m uname with
       | some n => pyDictAssign md m n
       | none => md)

/-- The `data` dict of `alert_quantities_by_user_by_month` (lines
88-98): a user's column is recorded only when the user has at least one
month of data *and* `exclude_analysts_without_data` is set. -/
def alertQuantitiesByUserData (months : List String) (q : String → String → Option Nat)
    (excl : Bool) : List (Nat × String) → List (String × List (String × Nat)) →
    List (String × List (String × Nat))
  | [], data => data
  | u :: users, data =>
    alertQuantitiesByUserData months q excl users
      (if !(userMonthData q u.2 months []).isEmpty && excl then
        pyDictAssign data u.2 (userMonthData q u.2 months [])
      else data)

/-- `alert_quantities_by_user_by_month(start_date, end_date, ...)`: the
month axis comes from the buggy `get_month_keys_between_two_dates` of
the same package (`none` = that call diverges). -/
def alert_quantities_by_user_by_month (fuel : Nat) (s e : PyDate)
    (users : List (Nat × String)) (q : String → String → Option Nat) (excl : Bool) :
    Option (List (String × List (String × Nat))) :=
  (get_month_keys_between_two_dates fuel s e).map
    (fun months => alertQuantitiesByUserData months q excl users [])

theorem buildCategoryMonthData_keys (atypes : List String)
    (q : String → List String → Option Nat) :
    ∀ (months : List String) (md : List (String × Nat)),
      months.Nodup → (∀ m ∈ months, m ∉ md.map Prod.fst) →
      (buildCategoryMonthData atypes q months md).map Prod.fst =
        md.map Prod.fst ++ months := by
  intro months
  induction months with
  | nil => intro md _ _; simp [buildCategoryMonthData]
  | cons m months ih =>
    intro md hnd hno
    rw [buildCategoryMonthData]
    have hm : m ∉ md.map Prod.fst := hno m (List.mem_cons_self m months)
    have h1 := pyDictAssign_keys_of_not_mem md m 0 hm
    have hstep : (if atypes.isEmpty then pyDictAssign md m 0
        else match q m atypes with
          | some n => pyDictAssign (pyDictAssign md m 0) m n
          | none => pyDictAssign md m 0).map Prod.fst = md.map Prod.fst ++ [m] := by
      by_cases he : atypes.isEmpty
      · rw [if_pos he]
        exact h1
      · rw [if_neg he]
        cases hq : q m atypes with
        | none => exact h1
        | some n =>
          have h2 : m ∈ (pyDictAssign md m 0).map Prod.fst := by
            rw [h1]
            simp
          rw [pyDictAssign_keys_of_mem _ m n h2]
          exact h1
    rw [ih _ ((List.nodup_cons.mp hnd).2) ?_, hstep]
    · simp
    · intro m' hm' hmem
      rw [hstep] at hmem
      rcases List.mem_append.mp hmem with hmem | hmem
      · exact hno m' (List.mem_cons_of_mem _ hm') hmem
      · simp at hmem
        subst hmem
        exact (List.nodup_cons.mp hnd).1 hm'

theorem dedupFoldl_of_nodup :
    ∀ (l acc : List String), l.Nodup → (∀ x ∈ l, x ∉ acc) →
      l.foldl (fun acc x => if x ∈ acc then acc else acc ++ [x]) acc = acc ++ l := by
  intro l
  induction l with
  | nil => intro acc _ _; simp
  | cons a rest ih =>
    intro acc hnd hno
    rw [List.foldl_cons, if_neg (hno a (List.mem_cons_self a rest))]
    rw [ih (acc ++ [a]) (List.nodup_cons.mp hnd).2 ?_]
    · simp
    · intro x hx hmem
      rcases List.mem_append.mp hmem with h | h
      · exact hno x (List.mem_cons_of_mem _ hx) h
      · simp at h
        subst h
        exact (List.nodup_cons.mp hnd).1 hx

theorem dedupFoldl_of_subset :
    ∀ (l acc : List String), (∀ x ∈ l, x ∈ acc) →
      l.foldl (fun acc x => if x ∈ acc then acc else acc ++ [x]) acc = acc := by
  intro l
  induction l with
  | nil => intro acc _; rfl
  | cons a rest ih =>
    intro acc hsub
    rw [List.foldl_cons, if_pos (hsub a (List.mem_cons_self a rest))]
    exact ih acc (fun x hx => hsub x (List.mem_cons_of_mem _ hx))

/-- A dict-of-dicts whose columns all have the full month axis as keys
yields the month axis itself as table index. -/
theorem tableIndex_of_uniform (months : List String) (hnd : months.Nodup)
    (data : List (String × List (String × Nat))) (hne : data ≠ [])
    (hall : ∀ p ∈ data, p.2.map Prod.fst = months) :
    tableIndex data = months := by
  match data with
  | [] => exact absurd rfl hne
  | p :: rest =>
    unfold tableIndex dedupF
    have hj : (List.map (fun c => c.2.map Prod.fst) (p :: rest)).join =
        p.2.map Prod.fst ++ (List.map (fun c => c.2.map Prod.fst) rest).join := rfl
    rw [hj, hall p (List.mem_cons_self p rest), List.foldl_append,
      dedupFoldl_of_nodup months [] hnd (by simp), List.nil_append]
    apply dedupFoldl_of_subset
    intro x hx
    rcases List.mem_join.mp hx with ⟨l, hl, hxl⟩
    rcases List.mem_map.mp hl with ⟨c, hc, rfl⟩
    rw [hall c (List.mem_cons_of_mem p hc)] at hxl
    exact hxl

theorem alertTypeCategoriesMap_ne_nil (catkey : List (String × List String))
    (types : List String) (h : catkey ≠ []) :
    alertTypeCategoriesMap catkey types ≠ [] := by
  have hpos : 0 < ((buildGrouping catkey types []).1).length := by
    rw [buildGrouping_fst_length catkey types []]
    exact List.length_pos.mpr h
  unfold alertTypeCategoriesMap
  by_cases hempty : (pySetDiff (buildGrouping catkey types []).2 types).isEmpty = true
  · rw [if_pos hempty]
    intro heq
    rw [heq] at hpos
    simp at hpos
  · rw [if_neg hempty]
    unfold pyDictSet
    by_cases hany : ((buildGrouping catkey types []).1.any (fun p => p.1 == "other")) = true
    · rw [if_pos hany]
      intro heq
      have hnil : (buildGrouping catkey types []).1 = [] := by
        have hlen := congrArg List.length heq
        rw [List.length_map] at hlen
        exact List.eq_nil_of_length_eq_zero (by simpa using hlen)
      rw [hnil] at hpos
      simp at hpos
    · rw [if_neg hany]
      intro heq
      have hlen := congrArg List.length heq
      rw [List.length_append] at hlen
      simp at hlen

/-- C4 counterexample: month-axis completeness fails for
`alert_quantities_by_user_by_month`.  On the two-month range November to
December 2023 (a range on which the month generator terminates) with one
user whose query rows exist only for December, the resulting table has a
single row — the November row is dropped entirely, not zero-filled. -/
theorem C4_counterexample_user_table_drops_empty_months :
    alert_quantities_by_user_by_month 5 ⟨2023, 11, 1⟩ ⟨2023, 12, 31⟩ [(1, "alice")]
      (fun m _ => if m == "202312" then some 3 else none) true =
      some [("alice", [("202312", 3)])] ∧
    tableIndex [("alice", [("202312", 3)])] = ["202312"] ∧
    monthSpan ⟨2023, 11, 1⟩ ⟨2023, 12, 31⟩ + 1 = 2 :=
  ⟨by decide, by decide, by decide⟩

/-- C4 (amended): `alert_type_quantities_by_category_by_month` does
satisfy month-axis completeness and zero-fill — every category column is
seeded with `month_data[month] = 0` for every month of the axis, so for
a duplicate-free axis and a non-empty category map the table index is
exactly the axis and every column carries every month (cells default to
0, never absent).  `alert_quantities_by_user_by_month` does not: its
per-user dicts skip months without query rows, so months with no data
for any recorded user are missing from the table (see the
counterexample). -/
theorem C4_amended_alert_type_table_is_complete
    (months : List String) (hnd : months.Nodup)
    (catkey : List (String × List String)) (types : List String)
    (q : String → List String → Option Nat) (hne : catkey ≠ []) :
    tableIndex (alertTypeQuantitiesData months catkey types q) = months ∧
    ∀ p ∈ alertTypeQuantitiesData months catkey types q,
      p.2.map Prod.fst = months := by
  have hcols : ∀ p ∈ alertTypeQuantitiesData months catkey types q,
      p.2.map Prod.fst = months := by
    intro p hp
    rcases List.mem_map.mp hp with ⟨c, hc, rfl⟩
    show (buildCategoryMonthData c.2 q months []).map Prod.fst = months
    rw [buildCategoryMonthData_keys c.2 q months [] hnd (by simp)]
    simp
  refine ⟨?_, hcols⟩
  apply tableIndex_of_uniform months hnd _ ?_ hcols
  unfold alertTypeQuantitiesData
  simp only [ne_eq, List.map_eq_nil_iff]
  exact alertTypeCategoriesMap_ne_nil catkey types hne

/-- Witness for C4 (amended): a concrete two-month axis with one
category and a query that has data only in the second month still
produces both rows, with the November cell zero-filled. -/
theorem C4_amended_alert_type_table_is_complete_witness :
    (["202311", "202312"] : List String).Nodup ∧
    ([("phish", ["email_"])] : List (String × List String)) ≠ [] ∧
    tableIndex (alertTypeQuantitiesData ["202311", "202312"] [("phish", ["email_"])]
      ["email_x", "net_y"] (fun m _ => if m == "202312" then some 7 else none)) =
      ["202311", "202312"] :=
  ⟨by decide, by decide,
   (C4_amended_alert_type_table_is_complete ["202311", "202312"] (by decide)
     [("phish", ["email_"])] ["email_x", "net_y"]
     (fun m _ => if m == "202312" then some 7 else none) (by decide)).1⟩

theorem alertQuantitiesByUserData_excl_false (months : List String)
    (q : String → String → Option Nat) :
    ∀ (users : List (Nat × String)) (data : List (String × List (String × Nat))),
      alertQuantitiesByUserData months q false users data = data := by
  intro users
  induction users with
  | nil => intro data; rfl
  | cons u users ih =>
    intro data
    rw [alertQuantitiesByUserData]
    have hc : (!(userMonthData q u.2 months []).isEmpty && false) = false :=
      Bool.and_false _
    rw [hc, if_neg (by simp)]
    exact ih data

/-- C7: when `exclude_analysts_without_data` is `False`, the condition
`if month_data and exclude_analysts_without_data` never holds, so no
user is ever recorded: the resulting table has no user columns at all,
whatever the months, users and query data. -/
theorem C7_exclude_flag_false_records_no_users (months : List String)
    (users : List (Nat × String)) (q : String → String → Option Nat) :
    alertQuantitiesByUserData months q false users [] = [] :=
  alertQuantitiesByUserData_excl_false months q users []

/-- Python `sub in s` substring containment. -/
def containsSubstring (s sub : String) : Bool :=
  (List.range (s.data.length + 1)).any
    (fun i => List.take sub.data.length (List.drop i s.data) == sub.data)

/-- A raised Python exception: class name and message. -/
structure PyError where
  kind : String
  msg : String
deriving DecidableEq, Repr

/-- The fixed whitelist `VALID_TABLE_NAMES` of
src/ace_metrics/plotly_dash/helpers.py lines 10-26. -/
def VALID_TABLE_NAMES : List String :=
  ["analyst_alert_quantities", "alert_type_quantities", "hours_of_operation",
   "overall_operating_alert", "cycle_time_sum", "cycle_time_mean",
   "cycle_time_min", "cycle_time_max", "cycle_time_std", "alert_count",
   "cycle_time_sum_BH", "cycle_time_mean_BH", "cycle_time_min_BH",
   "cycle_time_max_BH", "cycle_time_std_BH"]

/-- The loop of `fetch_data` (lines 46-53): validate each requested name
before reading it; an invalid name raises
`ValueError("Invalid table name")` at once.  The dataframe payload is
abstract (`α`): `readSql` models `pd.read_sql_query` for a table name
and `cleanFn` models the column-label cleanup applied when
`clean_column_names` is set. -/
def fetchDataLoop {α : Type} (readSql : String → α) (clean : Bool) (cleanFn : α → α) :
    List String → List (String × α) → Except PyError (List (String × α))
  | [], acc => Except.ok acc
  | t :: ts, acc =>
    if t ∈ VALID_TABLE_NAMES then
      fetchDataLoop readSql clean cleanFn ts
        (pyDictAssign acc t (if clean then cleanFn (readSql t) else readSql t))
    else
      Except.error ⟨"ValueError", "Invalid table name"⟩

/-- `fetch_data(tables, clean_column_names)`. -/
def fetch_data {α : Type} (tables : List String) (readSql : String → α)
    (clean : Bool) (cleanFn : α → α) : Except PyError (List (String × α)) :=
  fetchDataLoop readSql clean cleanFn tables []

theorem fetchDataLoop_spec {α : Type} (readSql : String → α) (clean : Bool)
    (cleanFn : α → α) :
    ∀ (ts : List String) (acc : List (String × α)),
      ((∃ t ∈ ts, t ∉ VALID_TABLE_NAMES) →
        fetchDataLoop readSql clean cleanFn ts acc =
          Except.error ⟨"ValueError", "Invalid table name"⟩) ∧
      ((∀ t ∈ ts, t ∈ VALID_TABLE_NAMES) →
        ∃ res, fetchDataLoop readSql clean cleanFn ts acc = Except.ok res) := by
  intro ts
  induction ts with
  | nil =>
    intro acc
    refine ⟨?_, fun _ => ⟨acc, rfl⟩⟩
    rintro ⟨t, ht, _⟩
    exact absurd ht (List.not_mem_nil t)
  | cons t ts ih =>
    intro acc
    by_cases hv : t ∈ VALID_TABLE_NAMES
    · rw [fetchDataLoop, if_pos hv]
      constructor
      · rintro ⟨t', ht', hnv⟩
        rcases List.mem_cons.mp ht' with rfl | ht'
        · exact absurd hv hnv
        · exact (ih _).1 ⟨t', ht', hnv⟩
      · intro hall
        exact (ih _).2 (fun x hx => hall x (List.mem_cons_of_mem _ hx))
    · rw [fetchDataLoop, if_neg hv]
      exact ⟨fun _ => rfl, fun hall => absurd (hall t (List.mem_cons_self t ts)) hv⟩

/-- C9 counterexample: the claim says an unknown name fails with an
`UnknownCategoryError` carrying the offending name.  The code raises
`ValueError` with the constant message `"Invalid table name"`: the
offending name `bogus_table` appears nowhere in the error, and no
`UnknownCategoryError` class exists in the repository. -/
theorem C9_counterexample_error_carries_no_name :
    fetch_data ["bogus_table"] (fun _ => (0 : Nat)) false id =
      Except.error ⟨"ValueError", "Invalid table name"⟩ ∧
    containsSubstring "Invalid table name" "bogus_table" = false :=
  ⟨rfl, by decide⟩

/-- C9 (amended): referencing any table name outside the fixed
`VALID_TABLE_NAMES` whitelist makes `fetch_data` fail immediately with
`ValueError("Invalid table name")` — a constant message that does not
carry the offending name (the spec's `UnknownCategoryError` does not
exist in the code) — rather than substituting default data, and
requests naming only valid tables return normally. -/
theorem C9_amended_invalid_name_raises_valueerror {α : Type}
    (tables : List String) (readSql : String → α) (clean : Bool) (cleanFn : α → α) :
    ((∃ t ∈ tables, t ∉ VALID_TABLE_NAMES) →
      fetch_data tables readSql clean cleanFn =
        Except.error ⟨"ValueError", "Invalid table name"⟩) ∧
    ((∀ t ∈ tables, t ∈ VALID_TABLE_NAMES) →
      ∃ res, fetch_data tables readSql clean cleanFn = Except.ok res) :=
  fetchDataLoop_spec readSql clean cleanFn tables []

/-- Witness for C9 (amended): the invalid request `["bogus"]` errors and
the valid request `["alert_count"]` succeeds. -/
theorem C9_amended_invalid_name_raises_valueerror_witness :
    fetch_data ["bogus"] (fun _ => (0 : Nat)) false id =
      Except.error ⟨"ValueError", "Invalid table name"⟩ ∧
    ∃ res, fetch_data ["alert_count"] (fun _ => (0 : Nat)) false id = Except.ok res :=
  ⟨(C9_amended_invalid_name_raises_valueerror ["bogus"] (fun _ => (0 : Nat)) false id).1
     ⟨"bogus", by decide, by decide⟩,
   (C9_amended_invalid_name_raises_valueerror ["alert_count"] (fun _ => (0 : Nat)) false
     id).2 (by decide)⟩

/-- Python `str.strip()` (whitespace at both ends). -/
def pyStrip (s : List Char) : List Char :=
  ((s.dropWhile Char.isWhitespace).reverse.dropWhile Char.isWhitespace).reverse

/-- Python `s.replace(old, new)`: replace every non-overlapping
occurrence, left to right, including the empty-pattern behaviour
(`"ab".replace("", "x") = "xaxbx"`).  Structural recursion on a fuel
bound (any fuel above the string length gives the fixed point, since
every step strictly shortens the remaining input). -/
def replaceAllAux (old new : List Char) : Nat → List Char → List Char
  | 0, s => s
  | _ + 1, [] => if old.isEmpty then new else []
  | fuel + 1, c :: rest =>
    if ¬old.isEmpty ∧ List.take old.length (c :: rest) = old then
      new ++ replaceAllAux old new fuel (List.drop old.length (c :: rest))
    else if old.isEmpty then
      new ++ c :: replaceAllAux old new fuel rest
    else
      c :: replaceAllAux old new fuel rest

def replaceAll (old new s : List Char) : List Char :=
  replaceAllAux old new (s.length + 1) s

/-- Python `sub in s` on character lists. -/
def listContainsSub (s sub : List Char) : Bool :=
  (List.range (s.length + 1)).any
    (fun i => List.take sub.length (List.drop i s) == sub)

/-- The `keep_friendly=False` loop of `sanitize_table_name`
(src/metrics/helpers.py lines 127-131): map each friendly statistic
display name occurring in the name back to its key.  -/
def applyFriendlyMap (fm : List (List Char × List Char)) (s : List Char) : List Char :=
  fm.foldl (fun sn p => if listContainsSub sn p.2 then replaceAll p.2 p.1 sn else sn) s

/-- The `_invalid_chars` of `sanitize_table_name` (line 133). -/
def invalidChars : List Char := ['\\', '*', '?', ':', '/', '[', ']']

/-- Lines 134-135: replace each invalid character with `-`. -/
def replaceInvalidChars (s : List Char) : List Char :=
  invalidChars.foldl (fun sn ch => replaceAll [ch] ['-'] sn) s

/-- `sanitize_table_name(name)` for a non-`None` name with
`keep_friendly=False` (the call used by `dataframes_to_xlsx_bytes`).
Modelled from the spec: `FRIENDLY_STAT_NAME_MAP` lives in
`metrics/alerts/__init__.py`, which is not under src/; per spec §3 it is
a fixed 1:1 stat-key ↔ display-label map, abstracted here as the
parameter `fm` of (key, display-name) pairs. -/
def sanitize_table_name (fm : List (List Char × List Char)) (s : List Char) : List Char :=
  replaceInvalidChars (applyFriendlyMap fm (pyStrip s))

/-- `sanitize_table_name()` with no argument (line 122-123):
`"No name - "` followed by the current timestamp. -/
def noNameStr (tstamp : List Char) : List Char :=
  ("No name - ").data ++ tstamp

/-- Python `s.split(sep)` for a non-empty separator, again by
structural recursion on a fuel bound above the string length. -/
def splitOnSepAux (sep : List Char) : Nat → List Char → List (List Char)
  | 0, s => [s]
  | _ + 1, [] => [[]]
  | fuel + 1, c :: rest =>
    if ¬sep.isEmpty ∧ List.take sep.length (c :: rest) = sep then
      [] :: splitOnSepAux sep fuel (List.drop sep.length (c :: rest))
    else
      match splitOnSepAux sep fuel rest with
      | [] => [[c]]
      | hd :: tl => (c :: hd) :: tl

def splitOnSep (sep s : List Char) : List (List Char) :=
  splitOnSepAux sep (s.length + 1) s

/-- The "additional table name cleanup for excel" of
`dataframes_to_xlsx_bytes` (lines 203-208): split on `" - "`, abbreviate
every part but the last to its upper-cased first character followed by
`-`, and keep the last part.  Python's `part[0]` raises `IndexError` on
an empty part, modelled as `none`. -/
def abbrevName (clean : List Char) : Option (List Char) :=
  if (splitOnSep (' ' :: '-' :: ' ' :: []) clean).dropLast.any (fun p => p.isEmpty) then
    none
  else
    some ((((splitOnSep (' ' :: '-' :: ' ' :: []) clean).dropLast.map
      (fun p => (p.headD ' ').toUpper :: ['-'])).join) ++
      (splitOnSep (' ' :: '-' :: ' ' :: []) clean).getLastD [])

/-- The `"Collision - "` prefix of the fallback tab name (line 217). -/
def collisionPre : List Char := ("Collision - ").data

/-- Per-table tab-name computation of `dataframes_to_xlsx_bytes` (lines
193-212), before the collision check: the sanitized, excel-cleaned name
truncated to 31 characters, together with the advanced timestamp
counter.  `ts` is the stream of `datetime.now().timestamp()` strings;
a `None` table name consumes two timestamps (one for the logged
`table_name`, one inside `sanitize_table_name(None)`), an empty name
consumes one, a non-empty name none. -/
def tabNameStep (fm : List (List Char × List Char)) (ts : Nat → List Char)
    (nameOpt : Option (List Char)) (c : Nat) : Option (List Char × Nat) :=
  match nameOpt with
  | none => (abbrevName (noNameStr (ts (c + 1)))).map (fun n => (n.take 31, c + 2))
  | some s =>
    if s.isEmpty then
      (abbrevName (sanitize_table_name fm [])).map (fun n => (n.take 31, c + 1))
    else
      (abbrevName (sanitize_table_name fm s)).map (fun n => (n.take 31, c))

/-- The tab-name loop of `dataframes_to_xlsx_bytes` (lines 189-224):
each table's cleaned name is checked against the names chosen so far; on
a collision it is replaced by `"Collision - "` plus a fresh timestamp.
The output records each chosen tab name with a flag telling whether it
came from the collision branch; `none` propagates the `IndexError` of
the cleanup step. -/
def runTabNames (fm : List (List Char × List Char)) (ts : Nat → List Char) :
    List (Option (List Char)) → Nat → List (List Char) →
    Option (List (List Char × Bool))
  | [], _, _ => some []
  | nameOpt :: tables, c, tabNames =>
    match tabNameStep fm ts nameOpt c with
    | none => none
    | some (base, c1) =>
      if base ∈ tabNames then
        match runTabNames fm ts tables (c1 + 1) (tabNames ++ [collisionPre ++ ts c1]) with
        | none => none
        | some rest => some ((collisionPre ++ ts c1, true) :: rest)
      else
        match runTabNames fm ts tables c1 (tabNames ++ [base]) with
        | none => none
        | some rest => some ((base, false) :: rest)

/-- The tab names produced by `dataframes_to_xlsx_bytes` for the given
(optional) table names. -/
def dataframes_to_xlsx_tab_names (fm : List (List Char × List Char))
    (ts : Nat → List Char) (tables : List (Option (List Char))) :
    Option (List (List Char × Bool)) :=
  runTabNames fm ts tables 0 []

example : dataframes_to_xlsx_tab_names [] (fun i => ('t' :: Nat.toDigits 10 i))
    [some ("Alert Quantities").data, some ("Alert Quantities").data] =
    some [(("Alert Quantities").data, false), (collisionPre ++ ('t' :: ['0']), true)] := by
  decide

theorem tabNameStep_counter (fm : List (List Char × List Char)) (ts : Nat → List Char)
    (nameOpt : Option (List Char)) (c : Nat) (base : List Char) (c1 : Nat)
    (h : tabNameStep fm ts nameOpt c = some (base, c1)) : c ≤ c1 ∧ c1 ≤ c + 2 := by
  cases nameOpt with
  | none =>
    rw [tabNameStep] at h
    rcases Option.map_eq_some'.mp h with ⟨n, _, heq⟩
    injection heq with h1 h2
    omega
  | some s =>
    rw [tabNameStep] at h
    by_cases he : s.isEmpty
    · rw [if_pos he] at h
      rcases Option.map_eq_some'.mp h with ⟨n, _, heq⟩
      injection heq with h1 h2
      omega
    · rw [if_neg he] at h
      rcases Option.map_eq_some'.mp h with ⟨n, _, heq⟩
      injection heq with h1 h2
      omega

theorem tabNameStep_length (fm : List (List Char × List Char)) (ts : Nat → List Char)
    (nameOpt : Option (List Char)) (c : Nat) (base : List Char) (c1 : Nat)
    (h : tabNameStep fm ts nameOpt c = some (base, c1)) : base.length ≤ 31 := by
  have hbase : ∃ n : List Char, n.take 31 = base := by
    cases nameOpt with
    | none =>
      rw [tabNameStep] at h
      rcases Option.map_eq_some'.mp h with ⟨n, _, heq⟩
      injection heq with h1 _
      exact ⟨n, h1⟩
    | some s =>
      rw [tabNameStep] at h
      by_cases he : s.isEmpty
      · rw [if_pos he] at h
        rcases Option.map_eq_some'.mp h with ⟨n, _, heq⟩
        injection heq with h1 _
        exact ⟨n, h1⟩
      · rw [if_neg he] at h
        rcases Option.map_eq_some'.mp h with ⟨n, _, heq⟩
        injection heq with h1 _
        exact ⟨n, h1⟩
  obtain ⟨n, hn⟩ := hbase
  rw [← hn, List.length_take]
  exact min_le_left 31 n.length

theorem runTabNames_lengths (fm : List (List Char × List Char)) (ts : Nat → List Char) :
    ∀ (tables : List (Option (List Char))) (c : Nat) (tabNames : List (List Char))
      (out : List (List Char × Bool)),
      runTabNames fm ts tables c tabNames = some out →
      (∀ i, i < c + 3 * tables.length → (ts i).length ≤ 19) →
      ∀ p ∈ out, p.1.length ≤ 31 := by
  intro tables
  induction tables with
  | nil =>
    intro c tabNames out hrun _ p hp
    rw [runTabNames] at hrun
    have hout := Option.some_inj.mp hrun
    rw [← hout] at hp
    exact absurd hp (List.not_mem_nil p)
  | cons nameOpt rest ih =>
    intro c tabNames out hrun hts p hp
    rw [runTabNames] at hrun
    cases hstep : tabNameStep fm ts nameOpt c with
    | none =>
      simp only [hstep] at hrun
      exact absurd hrun (by simp)
    | some bc =>
      obtain ⟨base, c1⟩ := bc
      simp only [hstep] at hrun
      obtain ⟨hca, hcb⟩ := tabNameStep_counter fm ts nameOpt c base c1 hstep
      by_cases hcoll : base ∈ tabNames
      · rw [if_pos hcoll] at hrun
        cases hrec : runTabNames fm ts rest (c1 + 1) (tabNames ++ [collisionPre ++ ts c1]) with
        | none =>
          simp only [hrec] at hrun
          exact absurd hrun (by simp)
        | some out' =>
          simp only [hrec] at hrun
          have hout := Option.some_inj.mp hrun
          subst hout
          rcases List.mem_cons.mp hp with rfl | hp'
          · show (collisionPre ++ ts c1).length ≤ 31
            rw [List.length_append]
            have h19 : (ts c1).length ≤ 19 := by
              apply hts c1
              simp only [List.length_cons]
              omega
            have h12 : collisionPre.length = 12 := rfl
            omega
          · refine ih (c1 + 1) _ out' hrec (fun i hi => hts i ?_) p hp'
            simp only [List.length_cons]
            simp only [List.length_cons] at hi
            omega
      · rw [if_neg hcoll] at hrun
        cases hrec : runTabNames fm ts rest c1 (tabNames ++ [base]) with
        | none =>
          simp only [hrec] at hrun
          exact absurd hrun (by simp)
        | some out' =>
          simp only [hrec] at hrun
          have hout := Option.some_inj.mp hrun
          subst hout
          rcases List.mem_cons.mp hp with rfl | hp'
          · exact tabNameStep_length fm ts nameOpt c base c1 hstep
          · refine ih c1 _ out' hrec (fun i hi => hts i ?_) p hp'
            simp only [List.length_cons]
            simp only [List.length_cons] at hi
            omega

theorem runTabNames_nodup (fm : List (List Char × List Char)) (ts : Nat → List Char) :
    ∀ (tables : List (Option (List Char))) (c : Nat) (tabNames : List (List Char))
      (out : List (List Char × Bool)),
      runTabNames fm ts tables c tabNames = some out →
      (∀ i j, i < c + 3 * tables.length → j < c + 3 * tables.length →
        ts i = ts j → i = j) →
      (∀ p ∈ out, p.2 = false → List.take collisionPre.length p.1 ≠ collisionPre) →
      (∀ n ∈ tabNames, List.take collisionPre.length n ≠ collisionPre ∨
        ∃ k, k < c ∧ n = collisionPre ++ ts k) →
      tabNames.Nodup →
      (tabNames ++ out.map Prod.fst).Nodup := by
  intro tables
  induction tables with
  | nil =>
    intro c tabNames out hrun _ _ _ hnd
    rw [runTabNames] at hrun
    have hout := Option.some_inj.mp hrun
    rw [← hout]
    simpa using hnd
  | cons nameOpt rest ih =>
    intro c tabNames out hrun hinj hout hprior hnd
    rw [runTabNames] at hrun
    cases hstep : tabNameStep fm ts nameOpt c with
    | none =>
      simp only [hstep] at hrun
      exact absurd hrun (by simp)
    | some bc =>
      obtain ⟨base, c1⟩ := bc
      simp only [hstep] at hrun
      obtain ⟨hca, hcb⟩ := tabNameStep_counter fm ts nameOpt c base c1 hstep
      by_cases hcoll : base ∈ tabNames
      · rw [if_pos hcoll] at hrun
        cases hrec : runTabNames fm ts rest (c1 + 1) (tabNames ++ [collisionPre ++ ts c1]) with
        | none =>
          simp only [hrec] at hrun
          exact absurd hrun (by simp)
        | some out' =>
          simp only [hrec] at hrun
          have houteq := Option.some_inj.mp hrun
          subst houteq
          have hnotmem : (collisionPre ++ ts c1) ∉ tabNames := by
            intro hmem
            rcases hprior _ hmem with hL | ⟨k, hk, heq⟩
            · exact hL (List.take_left collisionPre (ts c1))
            · have hts_eq : ts c1 = ts k := List.append_cancel_left heq
              have hkc : c1 = k := by
                apply hinj c1 k ?_ ?_ hts_eq
                · simp only [List.length_cons]
                  omega
                · simp only [List.length_cons]
                  omega
              omega
          have h := ih (c1 + 1) (tabNames ++ [collisionPre ++ ts c1]) out' hrec
            (fun i j hi hj heq => hinj i j
              (by simp only [List.length_cons]; omega)
              (by simp only [List.length_cons]; omega)
              heq)
            (fun p hp hf => hout p (List.mem_cons_of_mem _ hp) hf)
            (fun n hn => by
              rcases List.mem_append.mp hn with h1 | h1
              · rcases hprior n h1 with hL | ⟨k, hk, heq⟩
                · exact Or.inl hL
                · exact Or.inr ⟨k, by omega, heq⟩
              · have hn1 : n = collisionPre ++ ts c1 := by simpa using h1
                exact Or.inr ⟨c1, by omega, hn1⟩)
            (List.nodup_append.mpr ⟨hnd, List.nodup_singleton _,
              fun a ha hb => by
                have hab : a = collisionPre ++ ts c1 := by simpa using hb
                rw [hab] at ha
                exact hnotmem ha⟩)
          rw [List.append_assoc] at h
          simpa using h
      · rw [if_neg hcoll] at hrun
        cases hrec : runTabNames fm ts rest c1 (tabNames ++ [base]) with
        | none =>
          simp only [hrec] at hrun
          exact absurd hrun (by simp)
        | some out' =>
          simp only [hrec] at hrun
          have houteq := Option.some_inj.mp hrun
          subst houteq
          have hbasePre : List.take collisionPre.length base ≠ collisionPre :=
            hout (base, false) (List.mem_cons_self _ _) rfl
          have h := ih c1 (tabNames ++ [base]) out' hrec
            (fun i j hi hj heq => hinj i j
              (by simp only [List.length_cons]; omega)
              (by simp only [List.length_cons]; omega)
              heq)
            (fun p hp hf => hout p (List.mem_cons_of_mem _ hp) hf)
            (fun n hn => by
              rcases List.mem_append.mp hn with h1 | h1
              · rcases hprior n h1 with hL | ⟨k, hk, heq⟩
                · exact Or.inl hL
                · exact Or.inr ⟨k, by omega, heq⟩
              · have hn1 : n = base := by simpa using h1
                rw [hn1]
                exact Or.inl hbasePre)
            (List.nodup_append.mpr ⟨hnd, List.nodup_singleton _,
              fun a ha hb => by
                have hab : a = base := by simpa using hb
                rw [hab] at ha
                exact hcoll ha⟩)
          rw [List.append_assoc] at h
          simpa using h

/-- C8: every tab name produced by `dataframes_to_xlsx_bytes` is at most
31 characters long (base names are truncated to 31; a collision name is
`"Collision - "` plus a timestamp string, 12 + at most 19 characters),
and name collisions are resolved with a fresh timestamp so all chosen
tab names are pairwise distinct.  Environment hypotheses: the timestamp
strings consumed during the run (at most three per table) are at most 19
characters, pairwise distinct, and no truncated base name begins with
`"Collision - "`. -/
theorem C8_tab_names_bounded_and_distinct
    (fm : List (List Char × List Char)) (ts : Nat → List Char)
    (tables : List (Option (List Char))) (out : List (List Char × Bool))
    (hrun : dataframes_to_xlsx_tab_names fm ts tables = some out)
    (hts : ∀ i, i < 3 * tables.length → (ts i).length ≤ 19)
    (hinj : ∀ i, i < 3 * tables.length → ∀ j, j < 3 * tables.length → ts i = ts j → i = j)
    (hbase : ∀ p ∈ out, p.2 = false → List.take collisionPre.length p.1 ≠ collisionPre) :
    (∀ p ∈ out, p.1.length ≤ 31) ∧ (out.map Prod.fst).Nodup := by
  constructor
  · exact runTabNames_lengths fm ts tables 0 [] out hrun (fun i hi => hts i (by omega))
  · have h := runTabNames_nodup fm ts tables 0 [] out hrun
      (fun i j hi hj heq => hinj i (by omega) j (by omega) heq)
      hbase (fun n hn => absurd hn (List.not_mem_nil n)) List.nodup_nil
    simpa using h

/-- Witness for C8: two tables that are both named `Alert Quantities`
collide; the second one is written under `Collision - t0`, both names
are at most 31 characters and distinct. -/
theorem C8_tab_names_bounded_and_distinct_witness :
    dataframes_to_xlsx_tab_names [] (fun i => 't' :: Nat.toDigits 10 i)
      [some ("Alert Quantities").data, some ("Alert Quantities").data] =
      some [(("Alert Quantities").data, false), (collisionPre ++ ['t', '0'], true)] ∧
    ((∀ p ∈ [(("Alert Quantities").data, false), (collisionPre ++ ['t', '0'], true)],
        p.1.length ≤ 31) ∧
      (([(("Alert Quantities").data, false),
         (collisionPre ++ ['t', '0'], true)]).map Prod.fst).Nodup) :=
  ⟨by decide,
   C8_tab_names_bounded_and_distinct [] (fun i => 't' :: Nat.toDigits 10 i)
     [some ("Alert Quantities").data, some ("Alert Quantities").data]
     [(("Alert Quantities").data, false), (collisionPre ++ ['t', '0'], true)]
     (by decide) (by decide) (by decide) (by decide)⟩
